import Mathlib

/-!
Verification development for the PDF question-answering frontend
(`frontend/app/pdf/page.tsx`).

The file embeds, as executable Lean definitions translated from the
TypeScript source, the five core subsystems the specification describes:

* the text normalizer `normalize`,
* the evidence-marker grammar (`parseHighlights`, `cleanHighlightMarkers`,
  both driven by the regex
  `/<<highlight(?:\s+page=(\d+))?>+\s*([\s\S]*?)\s*<+\/highlight>+/g`),
* the evidence correlator (`customTextRenderer`'s highlight predicate),
* the page-navigation policy derived from a completed turn's evidence,
* the stream-event decoder and the conversation-controller event handler
  of `sendQuestion` / `stopGeneration`.

Strings are processed as `List Char`; `String`-level wrappers mirror the
TypeScript entry points.
-/

namespace PdfSystem

/-! ## Character classes

`isJsSpace` is the character set of the JavaScript regex class `\s`
(ECMA-262 WhiteSpace ∪ LineTerminator), which both `\s`-based replacements
in `normalize` and the `\s` atoms of the highlight regex use.
-/

def isJsSpace (c : Char) : Bool :=
  c.toNat = 0x20 || c.toNat = 0x09 || c.toNat = 0x0a || c.toNat = 0x0b ||
  c.toNat = 0x0c || c.toNat = 0x0d || c.toNat = 0xa0 || c.toNat = 0x1680 ||
  (0x2000 ≤ c.toNat && c.toNat ≤ 0x200a) ||
  c.toNat = 0x2028 || c.toNat = 0x2029 || c.toNat = 0x202f ||
  c.toNat = 0x205f || c.toNat = 0x3000 || c.toNat = 0xfeff

def isAsciiDigit (c : Char) : Bool := 0x30 ≤ c.toNat && c.toNat ≤ 0x39

def isLowerAlpha (c : Char) : Bool := 0x61 ≤ c.toNat && c.toNat ≤ 0x7a

/-- ASCII fragment of JavaScript `String.prototype.toLowerCase`. The
`normalize` pipeline immediately strips every character outside
`[a-z0-9\s]`, so only the ASCII case mapping can influence its output. -/
def jsToLower (c : Char) : Char :=
  if 0x41 ≤ c.toNat && c.toNat ≤ 0x5a then Char.ofNat (c.toNat + 32) else c

/-- The character class `[a-z0-9\s]` kept by `normalize`'s first `replace`. -/
def allowedChar (c : Char) : Bool :=
  isLowerAlpha c || isAsciiDigit c || isJsSpace c

/-! ## Text Normalizer

TypeScript source:
```
const normalize = (s: string): string =>
  s.toLowerCase().replace(/[^a-z0-9\s]/g, "").replace(/\s+/g, " ").trim()
```
`collapseWs` realises `.replace(/\s+/g, " ")`: every maximal run of
whitespace becomes a single `' '`.  `trimLeft`/`trimRight` realise
`String.prototype.trim`.
-/

def collapseWs : List Char → List Char
  | [] => []
  | [c] => if isJsSpace c then [' '] else [c]
  | a :: b :: rest =>
    if isJsSpace a && isJsSpace b then collapseWs (b :: rest)
    else (if isJsSpace a then ' ' else a) :: collapseWs (b :: rest)

def trimLeft (l : List Char) : List Char := l.dropWhile isJsSpace

def trimRight : List Char → List Char
  | [] => []
  | c :: rest =>
    match trimRight rest with
    | [] => if isJsSpace c then [] else [c]
    | r => c :: r

def jsTrim (l : List Char) : List Char := trimRight (trimLeft l)

/-- `normalize` on character lists, the composition of the four steps of
the source arrow function. -/
def normChars (l : List Char) : List Char :=
  jsTrim (collapseWs ((l.map jsToLower).filter allowedChar))

/-- `normalize` as in the source, on `String`. -/
def normalize (s : String) : String := String.mk (normChars s.data)

/-- Characters that can appear in a `normalize` output: kept by the
`[^a-z0-9\s]` strip, and whitespace only as the collapsed `' '`. -/
def goodChar (c : Char) : Bool :=
  allowedChar c && (!isJsSpace c || c == ' ')

/-- No two adjacent whitespace characters (the post-collapse shape). -/
def noAdjWs : List Char → Bool
  | [] => true
  | [_] => true
  | a :: b :: rest => !(isJsSpace a && isJsSpace b) && noAdjWs (b :: rest)

/-! ## Evidence spans

```
interface Highlight { text: string; pageNumber?: number }
```
`pageNumber` is `Option Nat`; `truthyNat` embeds JavaScript truthiness of
`number | undefined` (`undefined` and `0` are falsy), which is how every
consumer tests `h.pageNumber`. -/

structure Highlight where
  text : String
  pageNumber : Option Nat
deriving DecidableEq, Repr

def truthyNat : Option Nat → Bool
  | none => false
  | some n => n ≠ 0

/-! ## Evidence Correlator

TypeScript source (body of `customTextRenderer`):
```
const strNorm = normalize(str)
if (strNorm.length < 3) return str
const pageHighlights = highlights.filter(
  h => !h.pageNumber || h.pageNumber === currentPage
)
if (pageHighlights.length === 0) return str
const isHighlighted = pageHighlights.some(h => {
  const hNorm = normalize(h.text)
  if (hNorm.includes(strNorm)) return true
  if (strNorm.includes(hNorm)) return true
  const hWords = hNorm.split(" ").filter(w => w.length >= 4)
  const sWords = strNorm.split(" ").filter(w => w.length >= 4)
  if (sWords.length > 0 && sWords.every(sw => hWords.some(hw =>
        hw.includes(sw) || sw.includes(hw)))) return true
  return false
})
```
-/

def isPrefixL : List Char → List Char → Bool
  | [], _ => true
  | _ :: _, [] => false
  | a :: as, b :: bs => a == b && isPrefixL as bs

/-- JavaScript `hay.includes(needle)`: `needle` occurs contiguously in `hay`. -/
def includesL : List Char → List Char → Bool
  | [], needle => needle.isEmpty
  | h :: t, needle => isPrefixL needle (h :: t) || includesL t needle

/-- JavaScript `s.split(sep)` for a single-character separator, keeping
empty pieces (`"".split(sep) = [""]`). -/
def splitOnChar (sep : Char) : List Char → List (List Char)
  | [] => [[]]
  | c :: rest =>
    let r := splitOnChar sep rest
    if c = sep then [] :: r
    else
      match r with
      | t :: ts => (c :: t) :: ts
      | [] => [[c]]

/-- `split(" ").filter(w => w.length >= 4)` on a normalized string. -/
def qualTokens (l : List Char) : List (List Char) :=
  (splitOnChar ' ' l).filter (fun w => 4 ≤ w.length)

/-- The page filter `h => !h.pageNumber || h.pageNumber === currentPage`. -/
def pageFilter (currentPage : Nat) (h : Highlight) : Bool :=
  !truthyNat h.pageNumber || h.pageNumber == some currentPage

/-- The per-span matching body of the `.some(...)` callback. -/
def spanMatches (strNorm : List Char) (h : Highlight) : Bool :=
  let hNorm := normChars h.text.data
  if includesL hNorm strNorm then true
  else if includesL strNorm hNorm then true
  else
    let hWords := qualTokens hNorm
    let sWords := qualTokens strNorm
    decide (0 < sWords.length) &&
      sWords.all (fun sw => hWords.any (fun hw => includesL hw sw || includesL sw hw))

/-- Whether `customTextRenderer` wraps the fragment `str` in a `<mark>`:
the fragment-highlight predicate of §4.3. -/
def isFragmentHighlighted (str : String) (currentPage : Nat)
    (highlights : List Highlight) : Bool :=
  let strNorm := normChars str.data
  if strNorm.length < 3 then false
  else
    let pageHighlights := highlights.filter (pageFilter currentPage)
    if pageHighlights.length = 0 then false
    else pageHighlights.any (spanMatches strNorm)

/-! ## Evidence Marker Grammar

TypeScript source:
```
const HIGHLIGHT_REGEX = /<<highlight(?:\s+page=(\d+))?>+\s*([\s\S]*?)\s*<+\/highlight>+/g

const parseHighlights = (text: string): Highlight[] => {
  const found: Highlight[] = []
  let match
  const regex = new RegExp(HIGHLIGHT_REGEX.source, HIGHLIGHT_REGEX.flags)
  while ((match = regex.exec(text)) !== null) {
    const pageNumber = match[1] ? parseInt(match[1], 10) : undefined
    const highlightText = match[2].trim()
    if (highlightText) found.push({ text: highlightText, pageNumber })
  }
  return found
}

const cleanHighlightMarkers = (text: string): string => {
  return text.replace(new RegExp(HIGHLIGHT_REGEX.source, HIGHLIGHT_REGEX.flags),
    (_match, page, content) => {
      const pageRef = page ? `**Page ${page}:** ` : ""
      return `\n> ${pageRef}${content.trim()}\n`
    })
}
```
The scanner below implements the backtracking semantics of this concrete
regex directly:

* the optional group `(?:\s+page=(\d+))?` is tried greedily; `\s+` and
  `\d+` take maximal runs (a shorter run would leave a whitespace/digit
  where `page=`/`>` is required, so backtracking inside them never helps);
  if the group or the following `>+` fails, the group is dropped and `>+`
  is retried at the same position;
* `>+`, `<+` and the closing `>+` are maximal nonempty runs (backtracking
  below the maximum would leave a `>`/`<` where a different literal is
  required);
* `\s*([\s\S]*?)\s*<+\/highlight>+` places the capture end at the
  *earliest* position from which (maximal whitespace, then a nonempty `<`
  run, then `/highlight`, then a nonempty `>` run) matches — the lazy
  quantifier's shortest-match rule;
* the `g` flag resumes scanning right after each match, and a failed
  attempt advances the start position by one character.

`match[1]` is the captured digit *string* (`Option (List Char)` here):
`parseHighlights` converts it with `parseInt` while `cleanHighlightMarkers`
interpolates it verbatim, so the scanner keeps the raw digits.
-/

def digitsToNat (ds : List Char) : Nat :=
  ds.foldl (fun n c => n * 10 + (c.toNat - '0'.toNat)) 0

def stripPrefixL : List Char → List Char → Option (List Char)
  | [], cs => some cs
  | _ :: _, [] => none
  | p :: ps, c :: cs => if p == c then stripPrefixL ps cs else none

/-- Match `(?:\s+page=(\d+))?>+` directly after the literal `<<highlight`;
returns the captured digits (if the attribute matched) and the rest after
the `>` run. -/
def matchOpenTail (cs : List Char) : Option (Option (List Char) × List Char) :=
  let withAttr : Option (Option (List Char) × List Char) :=
    let ws := cs.takeWhile isJsSpace
    let r1 := cs.dropWhile isJsSpace
    if ws.isEmpty then none
    else match stripPrefixL "page=".data r1 with
      | none => none
      | some r2 =>
        let ds := r2.takeWhile isAsciiDigit
        let r3 := r2.dropWhile isAsciiDigit
        if ds.isEmpty then none
        else
          let gts := r3.takeWhile (· == '>')
          let r4 := r3.dropWhile (· == '>')
          if gts.isEmpty then none else some (some ds, r4)
  match withAttr with
  | some r => some r
  | none =>
    let gts := cs.takeWhile (· == '>')
    let r1 := cs.dropWhile (· == '>')
    if gts.isEmpty then none else some (none, r1)

/-- Match `\s*<+\/highlight>+` at exactly this position; returns the rest
after the closing `>` run. -/
def closeAt (cs : List Char) : Option (List Char) :=
  let r1 := cs.dropWhile isJsSpace
  let lts := r1.takeWhile (· == '<')
  let r2 := r1.dropWhile (· == '<')
  if lts.isEmpty then none
  else match stripPrefixL "/highlight".data r2 with
    | none => none
    | some r3 =>
      let gts := r3.takeWhile (· == '>')
      let r4 := r3.dropWhile (· == '>')
      if gts.isEmpty then none else some r4

/-- Lazy search for the closing marker: the capture is everything before
the earliest position where `closeAt` succeeds. Fuel-indexed; the fuel is
always instantiated above the input length. -/
def findClose : Nat → List Char → Option (List Char × List Char)
  | 0, _ => none
  | fuel + 1, cs =>
    match closeAt cs with
    | some rest => some ([], rest)
    | none =>
      match cs with
      | [] => none
      | c :: t =>
        match findClose fuel t with
        | none => none
        | some (content, rest) => some (c :: content, rest)

/-- Try to match the whole regex with the match start at the head of `cs`. -/
def matchMarkerAt (cs : List Char) : Option (Option (List Char) × List Char × List Char) :=
  match stripPrefixL "<<highlight".data cs with
  | none => none
  | some r1 =>
    match matchOpenTail r1 with
    | none => none
    | some (pg, r2) =>
      let r3 := r2.dropWhile isJsSpace
      match findClose (r3.length + 1) r3 with
      | none => none
      | some (content, rest) => some (pg, content, rest)

/-- One segment of the scanned text: a literal character outside any match,
or one full marker match (captured digits, captured content). -/
inductive Seg where
  | ch (c : Char)
  | marker (pageDigits : Option (List Char)) (content : List Char)
deriving DecidableEq, Repr

/-- Global scan (`g` flag): repeatedly try the pattern at the current
position; on success continue after the match, on failure emit one literal
character and advance. Fuel-indexed; each step consumes at least one
character, so `length + 1` fuel never runs out. -/
def scanSegs : Nat → List Char → List Seg
  | 0, cs => cs.map Seg.ch
  | _ + 1, [] => []
  | fuel + 1, c :: t =>
    match matchMarkerAt (c :: t) with
    | some (pg, content, rest) => Seg.marker pg content :: scanSegs fuel rest
    | none => Seg.ch c :: scanSegs fuel t

def segments (s : String) : List Seg := scanSegs (s.data.length + 1) s.data

/-- `parseHighlights` from the source: each match whose trimmed interior is
non-empty contributes a span; `match[1] ? parseInt(match[1], 10) : undefined`
(a nonempty digit string is always truthy in JavaScript, so the attribute
present — even `page=0` — yields a numeric `pageNumber`). -/
def parseHighlights (s : String) : List Highlight :=
  (segments s).filterMap fun
    | .ch _ => none
    | .marker pg content =>
      let highlightText := jsTrim content
      if highlightText.isEmpty then none
      else some ⟨String.mk highlightText, pg.map digitsToNat⟩

/-- `cleanHighlightMarkers` from the source: every match is replaced by a
block quote; the page label uses the raw captured digit string. -/
def cleanHighlightMarkers (s : String) : String :=
  String.mk <| (segments s).flatMap fun
    | .ch c => [c]
    | .marker pg content =>
      let pageRef := match pg with
        | some ds => "**Page ".data ++ ds ++ ":** ".data
        | none => []
      '\n' :: '>' :: ' ' :: (pageRef ++ jsTrim content ++ ['\n'])

/-! ## Stream events and payload parsing

```
interface — §6: data: {type: "thinking", content} | {type: "text", content}
            | {type: "complete", content?, session_id?} | {type: "error", error}
```
`JSON.parse` is a platform builtin; it is modelled here for exactly the
flat string/number record shapes of §6 (key/value objects, string values
with the standard escapes, non-negative integer values). Any other payload
parses to `none`, which the decoder drops — the same observable outcome as
the source's `catch {}` around `JSON.parse` for malformed lines.
-/

inductive JVal where
  | str (s : String)
  | num (n : Nat)
deriving DecidableEq, Repr

def skipJsonWs (l : List Char) : List Char :=
  l.dropWhile (fun c => c = ' ' || c = '\t' || c = '\n' || c = '\r')

def unescape (c : Char) : Option Char :=
  if c = '"' then some '"'
  else if c = '\\' then some '\\'
  else if c = '/' then some '/'
  else if c = 'n' then some '\n'
  else if c = 't' then some '\t'
  else if c = 'r' then some '\r'
  else none

/-- Parse the body of a JSON string (after the opening quote). -/
def parseStrBody : List Char → Option (List Char × List Char)
  | [] => none
  | '"' :: rest => some ([], rest)
  | '\\' :: e :: rest =>
    match unescape e, parseStrBody rest with
    | some c, some (s, r) => some (c :: s, r)
    | _, _ => none
  | c :: rest =>
    match parseStrBody rest with
    | some (s, r) => some (c :: s, r)
    | none => none

def parseJVal (l : List Char) : Option (JVal × List Char) :=
  match l with
  | '"' :: rest =>
    match parseStrBody rest with
    | some (s, r) => some (.str (String.mk s), r)
    | none => none
  | _ =>
    let ds := l.takeWhile isAsciiDigit
    let r := l.dropWhile isAsciiDigit
    if ds.isEmpty then none else some (.num (digitsToNat ds), r)

/-- Parse `"key" : value ( , "key" : value )*` up to the closing brace. -/
def parseMembers : Nat → List Char → Option (List (String × JVal) × List Char)
  | 0, _ => none
  | fuel + 1, l =>
    match skipJsonWs l with
    | '"' :: rest =>
      match parseStrBody rest with
      | none => none
      | some (k, r1) =>
        match skipJsonWs r1 with
        | ':' :: r2 =>
          match parseJVal (skipJsonWs r2) with
          | none => none
          | some (v, r3) =>
            match skipJsonWs r3 with
            | ',' :: r4 =>
              match parseMembers fuel r4 with
              | some (ms, r5) => some ((String.mk k, v) :: ms, r5)
              | none => none
            | '}' :: r4 => some ([(String.mk k, v)], r4)
            | _ => none
        | _ => none
    | _ => none

/-- `JSON.parse` restricted to the flat record shapes of §6. -/
def parseJsonRecord (s : String) : Option (List (String × JVal)) :=
  match skipJsonWs s.data with
  | '{' :: rest =>
    match skipJsonWs rest with
    | '}' :: r1 => if (skipJsonWs r1).isEmpty then some [] else none
    | _ =>
      match parseMembers (rest.length + 1) rest with
      | some (ms, r1) => if (skipJsonWs r1).isEmpty then some ms else none
      | none => none
  | _ => none

def lookupStr (ms : List (String × JVal)) (k : String) : Option String :=
  match ms.lookup k with
  | some (.str s) => some s
  | _ => none

/-- The typed stream events of §3 as dispatched by the `switch` in
`sendQuestion`; field presence mirrors the optional JSON fields. -/
inductive StreamEvent where
  | thinking (content : Option String)
  | text (content : Option String)
  | complete (content : Option String) (sessionId : Option String)
  | error (errMsg : Option String)
deriving DecidableEq, Repr

/-- Dispatch on the `type` discriminator (the `switch (event.type)`);
records with an unknown or missing `type` fall through every case and are
observationally dropped. -/
def eventOfRecord (ms : List (String × JVal)) : Option StreamEvent :=
  match lookupStr ms "type" with
  | some "thinking" => some (.thinking (lookupStr ms "content"))
  | some "text" => some (.text (lookupStr ms "content"))
  | some "complete" => some (.complete (lookupStr ms "content") (lookupStr ms "session_id"))
  | some "error" => some (.error (lookupStr ms "error"))
  | _ => none

/-! ## Stream Event Decoder

TypeScript source (read loop of `sendQuestion`):
```
while (true) {
  const { done, value } = await reader.read()
  if (done) break
  const chunk = decoder.decode(value)
  const lines = chunk.split("\n")
  for (const line of lines) {
    if (!line.startsWith("data: ")) continue
    const data = line.slice(6)
    if (data === "[DONE]") continue
    try { const event = JSON.parse(data); switch (event.type) { ... } }
    catch { /* skip */ }
  }
}
```
Each chunk is split on `"\n"` *independently* — there is no carry-over
buffer for a line left incomplete at the end of a chunk.
-/

/-- Decode one line of a chunk into at most one stream event
(`line.startsWith("data: ")`, `line.slice(6)`, the `[DONE]` sentinel,
then `JSON.parse` plus the `switch`). -/
def lineToEvent (line : List Char) : Option StreamEvent :=
  if !isPrefixL "data: ".data line then none
  else
    let data := String.mk (line.drop 6)
    if data = "[DONE]" then none
    else
      match parseJsonRecord data with
      | some ms => eventOfRecord ms
      | none => none

/-- The decoder over a delivered sequence of chunks, exactly as the read
loop processes them: split each chunk on `"\n"`, decode each line. -/
def decodeChunks (chunks : List String) : List StreamEvent :=
  chunks.flatMap (fun chunk => ((splitOnChar '\n' chunk.data).filterMap lineToEvent))

/-! ## Page Navigation Policy

TypeScript source (inside the `complete` case):
```
const firstPageHighlight = newHighlights.find(h => h.pageNumber)
if (firstPageHighlight?.pageNumber) {
  setCurrentPage(firstPageHighlight.pageNumber)
}
```
-/

def navigate (hs : List Highlight) (cur : Nat) : Nat :=
  match hs.find? (fun h => truthyNat h.pageNumber) with
  | some h => if truthyNat h.pageNumber then h.pageNumber.getD cur else cur
  | none => cur

/-- Modelled from the spec (§4.6 contract, for the refinement claim C6):
"select `currentPage` = the page number of the first element (in extraction
order) that has one; if none has a page number, the currently displayed
page is left unchanged." -/
def navigateSpec (hs : List Highlight) (cur : Nat) : Nat :=
  match hs.find? (fun h => h.pageNumber.isSome) with
  | some h => h.pageNumber.getD cur
  | none => cur

/-! ## Conversation Controller

State of `PdfPageContent` relevant to one conversation turn, together with
the local accumulators `fullThinking` / `fullResponse` of `sendQuestion`'s
read loop. `toasts` records the notifications emitted through
`toast.error`. -/

inductive Role where
  | user
  | assistant
  | thinking
deriving DecidableEq, Repr

/-- `ChatMessage` without the wall-clock `timestamp` field
(`new Date().toISOString()` is an external effect; no claim concerns it). -/
structure ChatMessage where
  role : Role
  content : String
deriving DecidableEq, Repr

structure ConvState where
  messages : List ChatMessage
  fullThinking : String
  fullResponse : String
  currentThinking : String
  currentResponse : String
  isLoading : Bool
  sdkSessionId : Option String
  highlights : List Highlight
  currentPage : Nat
  toasts : List String
deriving DecidableEq, Repr

/-- JavaScript truthiness of `string | undefined` (`undefined` and `""`
are falsy): the tests `if (event.session_id)` and `event.content || ...`. -/
def truthyStr : Option String → Bool
  | none => false
  | some s => s ≠ ""

/-- `x || y` on `string | undefined`. -/
def strOr (x : Option String) (y : String) : String :=
  match x with
  | some s => if s = "" then y else s
  | none => y

/-- The `switch (event.type)` body of `sendQuestion`'s read loop, one
event at a time. -/
def handleEvent (s : ConvState) (ev : StreamEvent) : ConvState :=
  match ev with
  | .thinking c =>
    let ft := s.fullThinking ++ (c.getD "")
    { s with fullThinking := ft, currentThinking := ft }
  | .text c =>
    let fr := s.fullResponse ++ (c.getD "")
    { s with fullResponse := fr, currentResponse := fr }
  | .complete content sessionId =>
    let fr := strOr content s.fullResponse
    let newHighlights := parseHighlights fr
    let msgs1 :=
      if s.fullThinking = "" then s.messages
      else s.messages ++ [⟨.thinking, s.fullThinking⟩]
    { s with
      fullResponse := fr
      sdkSessionId := if truthyStr sessionId then sessionId else s.sdkSessionId
      highlights := newHighlights
      currentPage := navigate newHighlights s.currentPage
      messages := msgs1 ++ [⟨.assistant, cleanHighlightMarkers fr⟩]
      currentThinking := ""
      currentResponse := "" }
  | .error e =>
    { s with toasts := s.toasts ++ [strOr e "An error occurred"] }

/-- Discriminator used to describe streams that never reach a `complete`
event (aborted mid-stream). -/
def isCompleteEv : StreamEvent → Bool
  | .complete _ _ => true
  | _ => false

/-- Entry of `sendQuestion` before the fetch: push the user message, set
loading, reset the live-display accumulators; the local `fullThinking` /
`fullResponse` start empty. -/
def startTurn (question : String) (s : ConvState) : ConvState :=
  { s with
    isLoading := true
    currentThinking := ""
    currentResponse := ""
    messages := s.messages ++ [⟨.user, question⟩]
    fullThinking := ""
    fullResponse := "" }

/-- The `finally` block: the stream ended (or threw). -/
def endStream (s : ConvState) : ConvState := { s with isLoading := false }

/-- `stopGeneration`: abort the in-flight read, stop loading, clear the
live accumulator displays (the aborted read loop's locals are discarded;
the catch for `AbortError` is silent and `finally` re-clears loading). -/
def stopGeneration (s : ConvState) : ConvState :=
  { s with isLoading := false, currentThinking := "", currentResponse := "" }

/-- One full turn: start, process the decoded events in order, stream end. -/
def runTurn (question : String) (events : List StreamEvent) (s : ConvState) : ConvState :=
  endStream ((startTurn question s |> (events.foldl handleEvent ·)))

/-- A turn cancelled after processing `events`: start, process, abort. -/
def abortedTurn (question : String) (events : List StreamEvent) (s : ConvState) : ConvState :=
  stopGeneration ((startTurn question s |> (events.foldl handleEvent ·)))

/-- The component's initial state (fresh document, page 1, no session). -/
def initState : ConvState :=
  { messages := []
    fullThinking := ""
    fullResponse := ""
    currentThinking := ""
    currentResponse := ""
    isLoading := false
    sdkSessionId := none
    highlights := []
    currentPage := 1
    toasts := [] }

/-! # Theorems -/

/-! ## Helper lemmas -/

/-- A span whose page constraint is truthy and differs from the active page
is removed by the correlator's page filter, so it can match nothing there. -/
theorem isFragmentHighlighted_page_mismatch {str t : String} {n p : Nat}
    (hn : n ≠ 0) (hne : ¬ n = p) :
    isFragmentHighlighted str p [⟨t, some n⟩] = false := by
  have h1 : pageFilter p ⟨t, some n⟩ = false := by
    simp [pageFilter, truthyNat, hn, hne]
  simp [isFragmentHighlighted, List.filter_cons, h1]

theorem navigate_cons_none {h : Highlight} (hpn : h.pageNumber = none)
    (t : List Highlight) (cur : Nat) : navigate (h :: t) cur = navigate t cur := by
  simp [navigate, List.find?, truthyNat, hpn]

theorem navigateSpec_cons_none {h : Highlight} (hpn : h.pageNumber = none)
    (t : List Highlight) (cur : Nat) : navigateSpec (h :: t) cur = navigateSpec t cur := by
  simp [navigateSpec, List.find?, hpn]

theorem foldl_handleEvent_no_complete (events : List StreamEvent) :
    ∀ s : ConvState, (∀ e ∈ events, isCompleteEv e = false) →
      (events.foldl handleEvent s).messages = s.messages := by
  induction events with
  | nil => intro s _; rfl
  | cons e es ih =>
    intro s h
    have he := h e (List.mem_cons_self e es)
    rw [List.foldl_cons, ih _ (fun e' he' => h e' (List.mem_cons_of_mem _ he'))]
    cases e with
    | thinking c => rfl
    | text c => rfl
    | complete c sid => simp [isCompleteEv] at he
    | error m => rfl

/-! ## Normal-form lemmas for `normalize` (claim C8)

A `normalize` output is *canonical*: every character is a kept alphanumeric
or the single space `' '`, no two whitespace characters are adjacent, and
the ends are not whitespace. Each pipeline stage fixes canonical lists. -/

theorem band_true {a b : Bool} (h : (a && b) = true) : a = true ∧ b = true := by
  simp at h
  exact ⟨h.1, h.2⟩

theorem band_intro {a b : Bool} (h1 : a = true) (h2 : b = true) : (a && b) = true := by
  rw [h1, h2]
  rfl

theorem bor_true {a b : Bool} (h : (a || b) = true) : a = true ∨ b = true := by
  simp at h
  exact h

theorem bnot_true {b : Bool} (h : (!b) = true) : b = false := by
  cases b
  · rfl
  · exact absurd h (by decide)

theorem bool_eq_false {b : Bool} (h : ¬ b = true) : b = false := by
  cases b
  · rfl
  · exact absurd rfl h

theorem bool_ne_true {b : Bool} (h : b = false) : ¬ b = true := by
  rw [h]
  exact Bool.false_ne_true

theorem goodChar_space : goodChar ' ' = true := by decide

theorem collapseWs_cons_cons (a b : Char) (r : List Char) :
    collapseWs (a :: b :: r) =
      if isJsSpace a && isJsSpace b then collapseWs (b :: r)
      else (if isJsSpace a then ' ' else a) :: collapseWs (b :: r) := rfl

theorem noAdjWs_cons_cons (a b : Char) (r : List Char) :
    noAdjWs (a :: b :: r) = (!(isJsSpace a && isJsSpace b) && noAdjWs (b :: r)) := rfl

theorem collapseWs_single_ws {a : Char} (h : isJsSpace a = true) :
    collapseWs [a] = [' '] := by
  simp [collapseWs, h]

theorem collapseWs_single_not_ws {a : Char} (h : ¬ isJsSpace a = true) :
    collapseWs [a] = [a] := by
  simp [collapseWs, h]

theorem collapseWs_cons_of_not_ws {b : Char} (hb : isJsSpace b = false)
    (rest : List Char) : collapseWs (b :: rest) = b :: collapseWs rest := by
  cases rest with
  | nil => simp [collapseWs, hb]
  | cons c r => simp [collapseWs, hb]

theorem collapseWs_good : ∀ l : List Char, (∀ c ∈ l, allowedChar c = true) →
    ∀ c ∈ collapseWs l, goodChar c = true := by
  intro l
  induction l with
  | nil => intro _ c hc; exact absurd hc (List.not_mem_nil c)
  | cons a t ih =>
    intro hall c hc
    have ha := hall a (List.mem_cons_self a t)
    have hgood_a : isJsSpace a = false → goodChar a = true := by
      intro hws
      simp [goodChar, ha, hws]
    cases t with
    | nil =>
      by_cases hws : isJsSpace a = true
      · rw [collapseWs_single_ws hws] at hc
        rw [List.mem_singleton.mp hc]
        exact goodChar_space
      · rw [collapseWs_single_not_ws hws] at hc
        rw [List.mem_singleton.mp hc]
        exact hgood_a (bool_eq_false hws)
    | cons b r =>
      have htail : ∀ x ∈ b :: r, allowedChar x = true :=
        fun x hx => hall x (List.mem_cons_of_mem _ hx)
      rw [collapseWs_cons_cons] at hc
      by_cases hab : (isJsSpace a && isJsSpace b) = true
      · rw [if_pos hab] at hc
        exact ih htail c hc
      · rw [if_neg hab] at hc
        rcases List.mem_cons.mp hc with rfl | hc2
        · by_cases hws : isJsSpace a = true
          · rw [if_pos hws]
            exact goodChar_space
          · rw [if_neg hws]
            exact hgood_a (bool_eq_false hws)
        · exact ih htail c hc2

theorem noAdjWs_collapseWs : ∀ l : List Char, noAdjWs (collapseWs l) = true := by
  intro l
  induction l with
  | nil => rfl
  | cons a t ih =>
    cases t with
    | nil =>
      by_cases hws : isJsSpace a = true
      · rw [collapseWs_single_ws hws]; rfl
      · rw [collapseWs_single_not_ws hws]; rfl
    | cons b r =>
      rw [collapseWs_cons_cons]
      by_cases hab : (isJsSpace a && isJsSpace b) = true
      · rw [if_pos hab]
        exact ih
      · rw [if_neg hab]
        by_cases hwa : isJsSpace a = true
        · have hwb : isJsSpace b = false := by
            cases hb : isJsSpace b
            · rfl
            · exact absurd (band_intro hwa hb) hab
          rw [if_pos hwa, collapseWs_cons_of_not_ws hwb r, noAdjWs_cons_cons, hwb]
          refine band_intro (by decide) ?_
          rw [← collapseWs_cons_of_not_ws hwb r]
          exact ih
        · rw [if_neg hwa]
          have hwa' : isJsSpace a = false := bool_eq_false hwa
          cases hR : collapseWs (b :: r) with
          | nil => rfl
          | cons y ys =>
            rw [noAdjWs_cons_cons, hwa']
            refine band_intro (by simp) ?_
            rw [← hR]
            exact ih

theorem noAdjWs_tail {a : Char} {l : List Char} (h : noAdjWs (a :: l) = true) :
    noAdjWs l = true := by
  cases l with
  | nil => rfl
  | cons b t =>
    rw [noAdjWs_cons_cons] at h
    exact (band_true h).2

theorem noAdjWs_dropWhile (p : Char → Bool) : ∀ l : List Char, noAdjWs l = true →
    noAdjWs (l.dropWhile p) = true := by
  intro l
  induction l with
  | nil => intro h; exact h
  | cons a t ih =>
    intro h
    by_cases hp : p a = true
    · rw [List.dropWhile_cons, if_pos hp]
      exact ih (noAdjWs_tail h)
    · rw [List.dropWhile_cons, if_neg hp]
      exact h

theorem trimRight_cons (a : Char) (t : List Char) :
    trimRight (a :: t) = match trimRight t with
      | [] => if isJsSpace a then [] else [a]
      | r => a :: r := rfl

theorem trimRight_cons_nil {a : Char} {t : List Char} (h : trimRight t = []) :
    trimRight (a :: t) = if isJsSpace a then [] else [a] := by
  rw [trimRight_cons, h]

theorem trimRight_cons_cons {a : Char} {t : List Char} {x : Char} {xs : List Char}
    (h : trimRight t = x :: xs) : trimRight (a :: t) = a :: x :: xs := by
  rw [trimRight_cons, h]

theorem mem_trimRight : ∀ l : List Char, ∀ c ∈ trimRight l, c ∈ l := by
  intro l
  induction l with
  | nil => intro c hc; exact absurd hc (List.not_mem_nil c)
  | cons a t ih =>
    intro c hc
    cases htr : trimRight t with
    | nil =>
      rw [trimRight_cons_nil htr] at hc
      by_cases hws : isJsSpace a = true
      · rw [if_pos hws] at hc
        exact absurd hc (List.not_mem_nil c)
      · rw [if_neg hws] at hc
        rw [List.mem_singleton.mp hc]
        exact List.mem_cons_self a t
    | cons x xs =>
      rw [trimRight_cons_cons htr] at hc
      rcases List.mem_cons.mp hc with hc1 | hc2
      · rw [hc1]
        exact List.mem_cons_self a t
      · exact List.mem_cons_of_mem _ (ih c (by rw [htr]; exact hc2))

theorem trimRight_head {b : Char} {t' : List Char} {x : Char} {xs : List Char}
    (h : trimRight (b :: t') = x :: xs) : x = b := by
  cases htr : trimRight t' with
  | nil =>
    rw [trimRight_cons_nil htr] at h
    by_cases hws : isJsSpace b = true
    · rw [if_pos hws] at h
      exact absurd h (by simp)
    · rw [if_neg hws] at h
      injection h with h1 _
      exact h1.symm
  | cons y ys =>
    rw [trimRight_cons_cons htr] at h
    injection h with h1 _
    exact h1.symm

theorem noAdjWs_trimRight : ∀ l : List Char, noAdjWs l = true →
    noAdjWs (trimRight l) = true := by
  intro l
  induction l with
  | nil => intro h; exact h
  | cons a t ih =>
    intro h
    cases htr : trimRight t with
    | nil =>
      rw [trimRight_cons_nil htr]
      by_cases hws : isJsSpace a = true
      · rw [if_pos hws]; rfl
      · rw [if_neg hws]; rfl
    | cons x xs =>
      rw [trimRight_cons_cons htr]
      have hta : noAdjWs (x :: xs) = true := by
        rw [← htr]
        exact ih (noAdjWs_tail h)
      cases t with
      | nil => exact absurd htr (by simp [trimRight])
      | cons b t' =>
        have hxb : x = b := trimRight_head htr
        subst hxb
        rw [noAdjWs_cons_cons]
        refine band_intro ?_ hta
        rw [noAdjWs_cons_cons] at h
        exact (band_true h).1

theorem trimRight_idem : ∀ l : List Char, trimRight (trimRight l) = trimRight l := by
  intro l
  induction l with
  | nil => rfl
  | cons a t ih =>
    cases htr : trimRight t with
    | nil =>
      rw [trimRight_cons_nil htr]
      by_cases hws : isJsSpace a = true
      · rw [if_pos hws]
        rfl
      · rw [if_neg hws]
        rw [trimRight_cons_nil (show trimRight ([] : List Char) = [] from rfl)]
        rw [if_neg hws]
    | cons x xs =>
      rw [trimRight_cons_cons htr]
      have hfix : trimRight (x :: xs) = x :: xs := by
        rw [← htr, ih]
      rw [trimRight_cons_cons hfix]

theorem trimLeft_eq_of_head {l : List Char}
    (h : ∀ c, l.head? = some c → isJsSpace c = false) : trimLeft l = l := by
  cases l with
  | nil => rfl
  | cons a t =>
    unfold trimLeft
    rw [List.dropWhile_cons, if_neg (bool_ne_true (h a rfl))]

theorem trimLeft_head_not_ws : ∀ (l : List Char) (c : Char),
    (trimLeft l).head? = some c → isJsSpace c = false := by
  intro l
  induction l with
  | nil => intro c hc; exact absurd hc (by simp [trimLeft])
  | cons a t ih =>
    intro c hc
    by_cases hws : isJsSpace a = true
    · rw [show trimLeft (a :: t) = trimLeft t by
        unfold trimLeft; rw [List.dropWhile_cons, if_pos hws]] at hc
      exact ih c hc
    · rw [show trimLeft (a :: t) = a :: t by
        unfold trimLeft; rw [List.dropWhile_cons, if_neg hws]] at hc
      simp at hc
      rw [← hc]
      exact bool_eq_false hws

theorem trimRight_head? : ∀ (l : List Char) (c : Char),
    (trimRight l).head? = some c → l.head? = some c := by
  intro l c hc
  cases l with
  | nil => exact absurd hc (by simp [trimRight])
  | cons a t =>
    cases htr : trimRight t with
    | nil =>
      rw [trimRight_cons_nil htr] at hc
      by_cases hws : isJsSpace a = true
      · rw [if_pos hws] at hc
        exact absurd hc (by simp)
      · rw [if_neg hws] at hc
        simp at hc
        simp [hc]
    | cons x xs =>
      rw [trimRight_cons_cons htr] at hc
      simp at hc
      simp [hc]

theorem collapseWs_eq_self : ∀ l : List Char, (∀ c ∈ l, goodChar c = true) →
    noAdjWs l = true → collapseWs l = l := by
  intro l
  induction l with
  | nil => intro _ _; rfl
  | cons a t ih =>
    intro hgood hadj
    have hga := hgood a (List.mem_cons_self a t)
    have hspace : isJsSpace a = true → a = ' ' := by
      intro hws
      rcases bor_true (band_true hga).2 with h | h
      · rw [hws] at h
        exact absurd h (by decide)
      · exact eq_of_beq h
    cases t with
    | nil =>
      by_cases hws : isJsSpace a = true
      · rw [collapseWs_single_ws hws, hspace hws]
      · rw [collapseWs_single_not_ws hws]
    | cons b r =>
      rw [noAdjWs_cons_cons] at hadj
      have h1 := band_true hadj
      have hab : (isJsSpace a && isJsSpace b) = false := bnot_true h1.1
      rw [collapseWs_cons_cons, if_neg (bool_ne_true hab)]
      rw [ih (fun x hx => hgood x (List.mem_cons_of_mem _ hx)) h1.2]
      by_cases hws : isJsSpace a = true
      · rw [if_pos hws, hspace hws]
      · rw [if_neg hws]

theorem jsToLower_eq_self {c : Char} (h : allowedChar c = true) : jsToLower c = c := by
  have hn : ¬(0x41 ≤ c.toNat ∧ c.toNat ≤ 0x5a) := by
    simp [allowedChar, isLowerAlpha, isAsciiDigit, isJsSpace] at h
    omega
  unfold jsToLower
  rw [if_neg (by simpa using hn)]

theorem map_jsToLower_eq_self : ∀ l : List Char,
    (∀ c ∈ l, goodChar c = true) → l.map jsToLower = l := by
  intro l
  induction l with
  | nil => intro _; rfl
  | cons a t ih =>
    intro h
    have hga := (band_true (h a (List.mem_cons_self a t))).1
    rw [List.map_cons, jsToLower_eq_self hga,
      ih (fun c hc => h c (List.mem_cons_of_mem _ hc))]

theorem filter_allowed_eq_self {l : List Char}
    (h : ∀ c ∈ l, goodChar c = true) : l.filter allowedChar = l :=
  List.filter_eq_self.mpr fun c hc => (band_true (h c hc)).1

theorem normChars_idem (l : List Char) : normChars (normChars l) = normChars l := by
  have hu : ∀ c ∈ (l.map jsToLower).filter allowedChar, allowedChar c = true :=
    fun c hc => (List.mem_filter.mp hc).2
  have hgood : ∀ c ∈ normChars l, goodChar c = true := by
    intro c hc
    have hc1 : c ∈ trimLeft (collapseWs ((l.map jsToLower).filter allowedChar)) :=
      mem_trimRight _ c hc
    have hc2 : c ∈ collapseWs ((l.map jsToLower).filter allowedChar) :=
      List.Sublist.mem hc1 (List.dropWhile_sublist _)
    exact collapseWs_good _ hu c hc2
  have hnoadj : noAdjWs (normChars l) = true :=
    noAdjWs_trimRight _ (noAdjWs_dropWhile _ _ (noAdjWs_collapseWs _))
  have hhead : ∀ c, (normChars l).head? = some c → isJsSpace c = false :=
    fun c hc => trimLeft_head_not_ws _ c (trimRight_head? _ c hc)
  show trimRight (trimLeft (collapseWs
    (((normChars l).map jsToLower).filter allowedChar))) = normChars l
  rw [map_jsToLower_eq_self _ hgood, filter_allowed_eq_self hgood,
    collapseWs_eq_self _ hgood hnoadj, trimLeft_eq_of_head hhead]
  exact trimRight_idem _

/-! ## Claims -/

/-- C1: the spec requires the stream decoder to buffer a `data: <JSON>`
line whose bytes are split across a chunk boundary and still decode it
exactly once. The decoder splits every chunk on `"\n"` independently, with
no carry-over buffer, so a line split mid-way decodes to zero events: the
first fragment fails the `data: ` prefix test (or fails `JSON.parse`), the
second fragment fails the prefix test. Delivered unsplit, the same bytes
decode to exactly one `text` event. -/
theorem C1_decoder_drops_split_line :
    decodeChunks ["data", ": \x7b\"type\":\"text\",\"content\":\"hi\"\x7d\n"] = [] ∧
    decodeChunks ["data: \x7b\"type\":\"text\",\"content\":\"hi\"\x7d\n"] =
      [StreamEvent.text (some "hi")] := by
  exact ⟨rfl, rfl⟩

/-- C2 counterexample: with the single active span
`{text: "Net sales were $5M", pageNumber: 3}`, the fragment
`"Net Sales Were $5,000,000"` on page 3 is NOT highlighted: neither
normalized string contains the other (`"net sales were 5m"` vs
`"net sales were 5000000"`), and the token criterion fails because the
fragment token `"5000000"` has no span token to overlap (`"5m"` is dropped
by the length-≥-4 filter). The claim asserts the predicate returns true. -/
theorem C2_counterexample :
    isFragmentHighlighted "Net Sales Were $5,000,000" 3
      [⟨"Net sales were $5M", some 3⟩] = false := by
  decide

/-- C2 amended: with the single active span
`{text: "Net sales were $5M", pageNumber: 3}`, the fragment-highlight
predicate returns FALSE for the fragment `"Net Sales Were $5,000,000"`
when the active page is 3, and returns false for the fragment `"the"` on
every page. -/
theorem C2_amended :
    isFragmentHighlighted "Net Sales Were $5,000,000" 3
      [⟨"Net sales were $5M", some 3⟩] = false ∧
    ∀ p : Nat, isFragmentHighlighted "the" p [⟨"Net sales were $5M", some 3⟩] = false := by
  refine ⟨by decide, fun p => ?_⟩
  by_cases hp : 3 = p
  · cases hp; decide
  · exact isFragmentHighlighted_page_mismatch (by decide) hp

/-- C3 counterexample: a span whose `pageNumber` is 99 (out of range for
any document with fewer pages, e.g. `pageCount = 5`) is NOT treated as
having no page constraint: the navigation policy sets the current page to
99, and the correlator refuses to match the span on an in-range page (2)
even for identical text, while a constraint-free span matches there. -/
theorem C3_counterexample :
    navigate [⟨"x", some 99⟩] 1 = 99 ∧
    isFragmentHighlighted "hello" 2 [⟨"hello", some 99⟩] = false ∧
    isFragmentHighlighted "hello" 2 [⟨"hello", none⟩] = true := by
  refine ⟨by decide, by decide, by decide⟩

/-- C3 amended: an evidence span whose `pageNumber` is present and nonzero
is page-constrained by its literal value, in range or not: the correlator
admits it exactly when the active page equals that value, and the page
navigation policy sets the current page to that value (even out of range). -/
theorem C3_amended :
    (∀ (h : Highlight) (p : Nat), truthyNat h.pageNumber = true →
      pageFilter p h = (h.pageNumber == some p)) ∧
    (∀ (t : String) (n cur : Nat), n ≠ 0 → navigate [⟨t, some n⟩] cur = n) := by
  constructor
  · intro h p ht
    simp [pageFilter, ht]
  · intro t n cur hn
    simp [navigate, List.find?, truthyNat, hn]

theorem C3_witness :
    pageFilter 2 ⟨"hello", some 99⟩ = (some 99 == some 2) ∧
    navigate [⟨"x", some 99⟩] 1 = 99 :=
  ⟨C3_amended.1 ⟨"hello", some 99⟩ 2 (by decide), C3_amended.2 "x" 99 1 (by decide)⟩

/-- C4 counterexample: aborting a turn mid-stream does NOT leave the
transcript length unchanged from before the turn started: `sendQuestion`
commits the user message before the fetch, so the aborted turn leaves the
transcript one message longer. -/
theorem C4_counterexample :
    (abortedTurn "q" [StreamEvent.text (some "hi")] initState).messages.length ≠
      initState.messages.length := by
  decide

/-- C4 amended: aborting mid-stream (before any `complete` event) leaves
the transcript equal to its pre-turn contents plus exactly the user
message committed at turn start; no assistant or reasoning message is
committed, the accumulated reasoning/answer display text is discarded, and
the controller returns to idle. -/
theorem C4_amended :
    ∀ (s : ConvState) (q : String) (events : List StreamEvent),
      (∀ e ∈ events, isCompleteEv e = false) →
      (abortedTurn q events s).messages = s.messages ++ [⟨Role.user, q⟩] ∧
      (abortedTurn q events s).currentThinking = "" ∧
      (abortedTurn q events s).currentResponse = "" ∧
      (abortedTurn q events s).isLoading = false := by
  intro s q events h
  refine ⟨?_, rfl, rfl, rfl⟩
  show (events.foldl handleEvent (startTurn q s)).messages = _
  rw [foldl_handleEvent_no_complete events _ h]
  rfl

theorem C4_witness :
    (abortedTurn "q" [StreamEvent.text (some "hi")] initState).messages =
      initState.messages ++ [⟨Role.user, "q"⟩] :=
  (C4_amended initState "q" [StreamEvent.text (some "hi")] (by decide)).1

/-- C5: for each accepted variant of the marker grammar (extra angle
brackets on the opening tag, closing tag `<</highlight>>` or
`</highlight>>`, extra trailing brackets), extraction on
`"a <<highlight page=3>>Net sales were $5M<</highlight>> b"` yields
exactly the one span `{text: "Net sales were $5M", pageNumber: 3}`; and a
marker pair with whitespace-only interior yields no span. -/
theorem C5_marker_variants :
    parseHighlights "a <<highlight page=3>>Net sales were $5M<</highlight>> b" =
      [⟨"Net sales were $5M", some 3⟩] ∧
    parseHighlights "a <<highlight page=3>>Net sales were $5M</highlight>> b" =
      [⟨"Net sales were $5M", some 3⟩] ∧
    parseHighlights "a <<<highlight page=3>>Net sales were $5M<</highlight>>> b" =
      [⟨"Net sales were $5M", some 3⟩] ∧
    parseHighlights "a <<highlight page=3>>>Net sales were $5M<</highlight>> b" =
      [⟨"Net sales were $5M", some 3⟩] ∧
    parseHighlights "x <<highlight>>   <</highlight>> y" = [] := by
  refine ⟨?_, ?_, ?_, ?_, ?_⟩ <;> rfl

/-- C6: the page navigation policy selects the page number of the first
element in extraction order that has one (under the data-model invariant
that present page numbers are positive), leaves the page unchanged when no
element has one, and on `[{x}, {y,7}, {z,2}]` navigates to page 7 — the
first page number in order, not the smallest. -/
theorem C6_first_page_navigation :
    (∀ (hs : List Highlight) (cur : Nat), (∀ h ∈ hs, h.pageNumber ≠ some 0) →
      navigate hs cur = navigateSpec hs cur) ∧
    (∀ (hs : List Highlight) (cur : Nat), (∀ h ∈ hs, h.pageNumber = none) →
      navigate hs cur = cur) ∧
    navigate [⟨"x", none⟩, ⟨"y", some 7⟩, ⟨"z", some 2⟩] 1 = 7 := by
  refine ⟨?_, ?_, by decide⟩
  · intro hs
    induction hs with
    | nil => intro cur _; rfl
    | cons h t ih =>
      intro cur hall
      cases hpn : h.pageNumber with
      | none =>
        rw [navigate_cons_none hpn, navigateSpec_cons_none hpn]
        exact ih cur (fun h' hh' => hall h' (List.mem_cons_of_mem _ hh'))
      | some n =>
        have hn : n ≠ 0 := by
          intro h0
          exact hall h (List.mem_cons_self h t) (by rw [hpn, h0])
        simp [navigate, navigateSpec, List.find?, truthyNat, hpn, hn]
  · intro hs
    induction hs with
    | nil => intro cur _; rfl
    | cons h t ih =>
      intro cur hall
      rw [navigate_cons_none (hall h (List.mem_cons_self h t))]
      exact ih cur (fun h' hh' => hall h' (List.mem_cons_of_mem _ hh'))

theorem C6_witness :
    navigate [⟨"x", none⟩, ⟨"y", some 7⟩, ⟨"z", some 2⟩] 1 =
      navigateSpec [⟨"x", none⟩, ⟨"y", some 7⟩, ⟨"z", some 2⟩] 1 ∧
    navigate [⟨"x", none⟩] 4 = 4 :=
  ⟨C6_first_page_navigation.1 _ 1 (by decide),
   C6_first_page_navigation.2.1 [⟨"x", none⟩] 4 (by decide)⟩

/-- C7 counterexample: a decoded `error` event does not end the turn: the
read loop keeps processing, so a `complete` event arriving after the error
still commits an assistant message — refuting "no further deltas or
messages committed for it". -/
theorem C7_counterexample :
    (runTurn "q" [StreamEvent.error (some "boom"),
        StreamEvent.complete (some "hi") none] initState).messages =
      [⟨Role.user, "q"⟩, ⟨Role.assistant, "hi"⟩] := by
  decide

/-- C7 amended: when an `error` event is decoded the transcript is not
mutated, the error text is surfaced as a notification, and the loading
state is untouched by the event itself; the controller returns to idle
when the stream ends, so a stream that ends after the error leaves only
the turn's user message and an idle controller — but events decoded after
the error are still processed. -/
theorem C7_amended :
    (∀ (s : ConvState) (m : Option String),
      (handleEvent s (.error m)).messages = s.messages ∧
      (handleEvent s (.error m)).toasts = s.toasts ++ [strOr m "An error occurred"] ∧
      (handleEvent s (.error m)).isLoading = s.isLoading) ∧
    (∀ (s : ConvState) (q : String) (m : Option String),
      (runTurn q [.error m] s).messages = s.messages ++ [⟨Role.user, q⟩] ∧
      (runTurn q [.error m] s).isLoading = false) := by
  exact ⟨fun s m => ⟨rfl, rfl, rfl⟩, fun s q m => ⟨rfl, rfl⟩⟩

/-- C9: on a `complete` event whose `content` field is the empty string,
the final answer text is the accumulated answer-delta text, not the empty
string: `event.content || fullResponse` falls back to the accumulator, so
the event behaves exactly as one with no `content`, and evidence
extraction, marker stripping, and the committed assistant message all use
the accumulator. -/
theorem C9_empty_complete_uses_accumulator :
    ∀ (s : ConvState) (sid : Option String),
      handleEvent s (.complete (some "") sid) = handleEvent s (.complete none sid) ∧
      (handleEvent s (.complete (some "") sid)).highlights =
        parseHighlights s.fullResponse ∧
      (handleEvent s (.complete (some "") sid)).messages =
        (if s.fullThinking = "" then s.messages
         else s.messages ++ [⟨Role.thinking, s.fullThinking⟩]) ++
        [⟨Role.assistant, cleanHighlightMarkers s.fullResponse⟩] := by
  intro s sid
  refine ⟨rfl, ?_, ?_⟩ <;> simp [handleEvent, strOr]

/-- C8: the text normalizer is a pure total function (lower-case, strip
every character outside `[a-z0-9\s]`, collapse whitespace runs to one
space, trim) and it is idempotent: `normalize (normalize s) = normalize s`
for every string `s`. -/
theorem C8_normalize_idempotent : ∀ s : String, normalize (normalize s) = normalize s := by
  intro s
  show String.mk (normChars (String.mk (normChars s.data)).data) = String.mk (normChars s.data)
  exact congrArg String.mk (normChars_idem s.data)

/-- C10: a marker with attribute `page=0` yields a span with `pageNumber`
0 (`"0"` is a truthy string, `parseInt` gives 0), and every consumer
treats that span exactly as one with no page number: the correlator's
predicate is unchanged when `some 0` is replaced by `none`, and page
navigation skips the span (`0` is falsy). -/
theorem C10_page_zero_like_absent :
    parseHighlights "<<highlight page=0>>x<</highlight>>" = [⟨"x", some 0⟩] ∧
    (∀ (str t : String) (p : Nat),
      isFragmentHighlighted str p [⟨t, some 0⟩] = isFragmentHighlighted str p [⟨t, none⟩]) ∧
    (∀ cur : Nat, navigate [⟨"x", some 0⟩] cur = cur) ∧
    navigate [⟨"x", some 0⟩, ⟨"y", some 7⟩] 1 = 7 := by
  refine ⟨by rfl, ?_, ?_, by decide⟩
  · intro str t p
    simp [isFragmentHighlighted, pageFilter, truthyNat, spanMatches]
  · intro cur
    simp [navigate, List.find?, truthyNat]

end PdfSystem
